import Mathlib

/-!
Verification development for the Mercury scan-and-extract pipeline
(src/mercury_bot.py).  Strings are embedded as `List Char`; Python's
truthiness, `str.strip`, `str.splitlines`, `str.split(sep, 1)` and the two
regular expressions of the source are given explicit executable
definitions.  The orchestration loop (`monitor_loop`) is embedded as a
state-transition function over an environment describing the outcome of
every external interaction (channel fetches, page navigations, rendered
page contents), returning the successor state together with the ordered
list of observable side effects of the cycle.
-/

/-- Python `str.strip` removes leading whitespace: drop from the front. -/
def trimL (l : List Char) : List Char := l.dropWhile Char.isWhitespace

/-- Python `str.strip` removes trailing whitespace: drop from the back. -/
def trimR (l : List Char) : List Char := (l.reverse.dropWhile Char.isWhitespace).reverse

/-- Embedding of Python `str.strip()` (both ends). -/
def pyStrip (l : List Char) : List Char := trimR (trimL l)

/-- A string is blank when stripping it leaves nothing (Python
`not s or not s.strip()`). -/
def isBlank (l : List Char) : Bool := pyStrip l = []

/-- Does `pre` occur at the head of the second list?  Helper for substring
search (Python `in` on strings). -/
def leadsWith : List Char → List Char → Bool
  | [], _ => true
  | _ :: _, [] => false
  | a :: as, b :: bs => a == b && leadsWith as bs

/-- Substring occurrence test, Python `needle in hay`. -/
def hasSubstr (needle : List Char) : List Char → Bool
  | [] => leadsWith needle []
  | c :: cs => leadsWith needle (c :: cs) || hasSubstr needle cs

/-- Embedding of Python `str.splitlines()` restricted to the newline
terminator: the final empty segment after a trailing newline is not
produced, and the empty string yields no lines. -/
def pySplitlines : List Char → List (List Char)
  | [] => []
  | c :: cs =>
    if c = '\n' then [] :: pySplitlines cs
    else
      match pySplitlines cs with
      | [] => [[c]]
      | seg :: rest => (c :: seg) :: rest

/-- Embedding of Python `"\n".join`. -/
def joinNl : List (List Char) → List Char
  | [] => []
  | [l] => l
  | l :: ls => l ++ '\n' :: joinNl ls

/-- Embedding of Python `" ".join`. -/
def joinSp : List (List Char) → List Char
  | [] => []
  | [l] => l
  | l :: ls => l ++ ' ' :: joinSp ls

/-- EMOJI_RE character class of mercury_bot.py: the seven code-point
ranges of the compiled pattern. -/
def isEmojiChar (c : Char) : Bool :=
  decide ((0x1F600 ≤ c.toNat ∧ c.toNat ≤ 0x1F64F) ∨
    (0x1F300 ≤ c.toNat ∧ c.toNat ≤ 0x1F5FF) ∨
    (0x1F680 ≤ c.toNat ∧ c.toNat ≤ 0x1F9FF) ∨
    (0x2600 ≤ c.toNat ∧ c.toNat ≤ 0x27BF) ∨
    (0x1FA00 ≤ c.toNat ∧ c.toNat ≤ 0x1FA6F) ∨
    (0x1FA70 ≤ c.toNat ∧ c.toNat ≤ 0x1FAFF) ∨
    (0x2702 ≤ c.toNat ∧ c.toNat ≤ 0x27B0))

/-- Python `EMOJI_RE.search(line)`: some character of the line lies in an
emoji range. -/
def hasEmoji (l : List Char) : Bool := l.any isEmojiChar

/-- JUNK_DOMAINS tuple of mercury_bot.py. -/
def JUNK_DOMAINS : List (List Char) :=
  ["t.me".toList, "telegram.me".toList, "telegram.dog".toList, "discord.gg".toList,
   "http://".toList, "https://".toList, "lowza".toList]

/-- Python `any(d in line.lower() for d in JUNK_DOMAINS)`. -/
def hasJunk (l : List Char) : Bool :=
  JUNK_DOMAINS.any (fun d => hasSubstr d (l.map Char.toLower))

/-- Character class `[a-zA-Z0-9._%+\-]` of VALID_EMAIL_RE (local part). -/
def emailLocalChar (c : Char) : Bool :=
  c.isAlpha || c.isDigit || c == '.' || c == '_' || c == '%' || c == '+' || c == '-'

/-- Character class `[a-zA-Z0-9.\-]` of VALID_EMAIL_RE (domain part). -/
def emailDomChar (c : Char) : Bool :=
  c.isAlpha || c.isDigit || c == '.' || c == '-'

/-- Final group `[a-zA-Z]\x7b2,\x7d$` of VALID_EMAIL_RE: at least two
alphabetic characters ending the string. -/
def emailTld (l : List Char) : Bool :=
  decide (2 ≤ l.length) && l.all Char.isAlpha

/-- The part after the `@` sign must decompose as `[a-zA-Z0-9.\-]+` then a
dot then the final alphabetic group; the existential over the split
position is decided by scanning every position. -/
def emailDomOk (l : List Char) : Bool :=
  (List.range l.length).any fun i =>
    i != 0 && (l.take i).all emailDomChar &&
      (match l.drop i with
       | c :: rest => c == '.' && emailTld rest
       | [] => false)

/-- Python `line.split(sep, 1)` when the separator occurs: the text before
the first occurrence and the text after it.  `none` when the separator
does not occur (Python would return a single part). -/
def splitFirstAt (sep : Char) : List Char → Option (List Char × List Char)
  | [] => none
  | c :: cs =>
    if c = sep then some ([], cs)
    else (splitFirstAt sep cs).map (fun p => (c :: p.1, p.2))

/-- Embedding of `VALID_EMAIL_RE.match(email)` being non-None: the pattern
is anchored on both sides, so it holds exactly of strings of the shape
local `@` domain with nonempty all-local-class text before the single `@`
and a domain decomposing per `emailDomOk`.  Any second `@` makes every
decomposition fail since no domain character class contains `@`. -/
def emailMatch (l : List Char) : Bool :=
  match splitFirstAt '@' l with
  | none => false
  | some (a, b) => !a.isEmpty && a.all emailLocalChar && emailDomOk b

/-- Embedding of `is_valid_combo` from mercury_bot.py.  The source's
`":" not in line` guard together with `len(parts) != 2` is captured by the
`none` branch of `splitFirstAt` (with a colon present, `split(":", 1)`
always yields exactly two parts); `pyStrip k` and `pyStrip v` are the
source's `email` and `password` bindings. -/
def is_valid_combo (line : List Char) : Bool :=
  if line.isEmpty || decide (200 < line.length) then false
  else if line.contains '|' then false
  else if hasEmoji line then false
  else if hasJunk line then false
  else
    match splitFirstAt ':' line with
    | none => false
    | some (k, v) =>
      if (pyStrip v).isEmpty || decide ((pyStrip v).length < 3) then false
      else if !emailMatch (pyStrip k) then false
      else true

/-- Loop body of `extract_credentials`: iterate over the raw lines;
`pyStrip a` is the `line = line.strip()` rebinding of the source, and the
guard is `if line and is_valid_combo(line) and line not in seen`. -/
def extractCredsAux (seen : List (List Char)) : List (List Char) → List (List Char)
  | [] => []
  | a :: rest =>
    if pyStrip a ≠ [] ∧ is_valid_combo (pyStrip a) = true ∧ pyStrip a ∉ seen then
      pyStrip a :: extractCredsAux (pyStrip a :: seen) rest
    else
      extractCredsAux seen rest

/-- Embedding of `extract_credentials` from mercury_bot.py. -/
def extract_credentials (raw : List Char) : List (List Char) :=
  extractCredsAux [] (pySplitlines raw)

/-- The spec's per-line predicate read literally: the key part (the text
before the first colon, not trimmed) must match the email pattern, while
the value part is trimmed before its length test. -/
def claimPredLiteral (line : List Char) : Bool :=
  decide (line.length ≤ 200) && !line.contains '|' && !hasEmoji line && !hasJunk line &&
    (match splitFirstAt ':' line with
     | none => false
     | some (k, v) => emailMatch k && decide (3 ≤ (pyStrip v).length))

/-- The spec's per-line predicate amended minimally: the key part is
trimmed of whitespace before being matched against the email pattern,
exactly as the source does. -/
def claimPredAmended (line : List Char) : Bool :=
  decide (line.length ≤ 200) && !line.contains '|' && !hasEmoji line && !hasJunk line &&
    (match splitFirstAt ':' line with
     | none => false
     | some (k, v) => emailMatch (pyStrip k) && decide (3 ≤ (pyStrip v).length))

/-- Accepted-line predicate of the loop in `extract_credentials`: Python
truthiness of the stripped line plus `is_valid_combo`. -/
def okLine (l : List Char) : Bool := decide (l ≠ [] ∧ is_valid_combo l = true)

/-- The stripped, accepted lines of a raw text, duplicates retained. -/
def acceptedLines (raw : List Char) : List (List Char) :=
  ((pySplitlines raw).map pyStrip).filter okLine

/-- Deduplication keeping the first occurrence of each element, as the
spec words it: output in original order, duplicates by exact text
removed. -/
def dedupKeepFirst : List (List Char) → List (List Char)
  | [] => []
  | l :: ls => l :: dedupKeepFirst (ls.filter (fun x => decide (x ≠ l)))
termination_by ls => ls.length
decreasing_by
  simp only [List.length_cons]
  exact Nat.lt_succ_of_le (List.length_filter_le _ _)

/-- Environment of one `extract_raw` call: per navigation attempt, whether
the attempt raises (navigation failure or any in-page evaluation error),
the in-memory value of the embedded ace editor (strategy a, null when
absent), the newline-join of the rendered `ace_line` texts (strategy b)
and the text of a `pre` block (strategy c, `none` when the block is
missing or its text is null). -/
structure ExtractEnv where
  navFails : Nat → Bool
  stratA : Nat → Option (List Char)
  stratB : Nat → List Char
  stratC : Nat → Option (List Char)

/-- Python blank test on an optional string: None, empty or whitespace. -/
def isBlankO : Option (List Char) → Bool
  | none => true
  | some v => isBlank v

/-- One iteration of the retry loop of `extract_raw`: `none` when the
attempt raised or every strategy yielded only blank text, otherwise the
non-blank text returned. -/
def attemptResult (e : ExtractEnv) (i : Nat) : Option (List Char) :=
  if e.navFails i then none
  else
    let r1 : Option (List Char) := e.stratA i
    let r2 : Option (List Char) := if isBlankO r1 then some (e.stratB i) else r1
    let r3 : Option (List Char) :=
      if isBlankO r2 then
        match e.stratC i with
        | some t => some t
        | none => r2
      else r2
    match r3 with
    | some r => if isBlank r then none else some r
    | none => none

/-- Embedding of `extract_raw` from mercury_bot.py: two attempts, then the
empty string. -/
def extract_raw (e : ExtractEnv) : List Char :=
  match attemptResult e 0 with
  | some r => r
  | none =>
    match attemptResult e 1 with
    | some r => r
    | none => []

/-- Configured page count of mercury_bot.py (PAGES_TO_SCAN). -/
def PAGES_TO_SCAN : Nat := 10

/-- Empty-streak alert threshold of mercury_bot.py (EMPTY_SCAN_ALERT). -/
def EMPTY_SCAN_ALERT : Nat := 10

/-- One archive entry collected by the crawl: listing title and link
target, the dict pushed by the in-page evaluation. -/
structure Item where
  title : List Char
  url : List Char
deriving DecidableEq

/-- Observable side effects of one cycle, in program order:
`pageScan n` for each archive page whose anchors were collected,
`postAll` for the full-candidate file sent to channel 1, `ownerStreak`
for the empty-streak owner direct message, `saveSeen` for the attempted
durable write of the seen set, `alertNew` per new-paste message to
channel 2, `extractOn` per content extraction attempted, and the three
content publications of step 6. -/
inductive Event where
  | pageScan (n : Nat)
  | postAll (urls : List (List Char))
  | ownerStreak
  | saveSeen (seen : List (List Char))
  | alertNew (url : List Char)
  | extractOn (url : List Char)
  | postContent (label : List Char)
  | ownerCombos (total : Nat)
  | telegram (label : List Char)
deriving DecidableEq

/-- The `stats` dict of mercury_bot.py. -/
structure Stats where
  total_pastes : Nat
  total_combos : Nat
  scans : Nat
  empty_scans : Nat
deriving DecidableEq

/-- Cross-cycle mutable state: the in-memory seen set `posted_urls`
(kept as a duplicate-free list) and the counters. -/
structure BotState where
  posted_urls : List (List Char)
  stats : Stats
deriving DecidableEq

/-- Environment of one cycle: outcome of each external interaction.
`channelOk` - the channel-1 lookup did not raise; `lockBusy` - a previous
cycle still holds the scan lock; `archiveAttempt i` - archive load
attempt `i` succeeded; `nav n` - an enabled next-page control was found
and clicked to reach page `n`; `pageMatches n` - the keyword-matching anchors
collected on page `n`; `newChannelOk` / `contentChannelOk` - the channel
lookups of steps 5 and 6 did not raise; `xenv u` - the rendering
behaviour seen when extracting from `u`. -/
structure CycleEnv where
  channelOk : Bool
  lockBusy : Bool
  archiveAttempt : Nat → Bool
  nav : Nat → Bool
  pageMatches : Nat → List Item
  newChannelOk : Bool
  contentChannelOk : Bool
  xenv : List Char → ExtractEnv

/-- Pagination loop of monitor_loop step 2: starting at `page_num` with
`fuel` pages left in `range(1, P + 1)`, the page numbers whose anchors
are collected.  Page 1 is already displayed; every later page requires a
successful next-control click, and a missing or disabled control ends
pagination. -/
def scanFuel (env : CycleEnv) : Nat → Nat → List Nat
  | 0, _ => []
  | fuel + 1, page_num =>
    if 1 < page_num ∧ env.nav page_num = false then []
    else page_num :: scanFuel env fuel (page_num + 1)

/-- All anchors collected across the visited pages (`found`). -/
def crawlFound (P : Nat) (env : CycleEnv) : List Item :=
  (scanFuel env P 1).flatMap env.pageMatches

/-- Within-run deduplication of monitor_loop: keep an item when its url
was not yet recorded in `seen_this_run`. -/
def dedupRun : List Item → List (List Char) → List Item
  | [], _ => []
  | it :: rest, seen =>
    if it.url ∈ seen then dedupRun rest seen
    else it :: dedupRun rest (it.url :: seen)

/-- The deduplicated candidate list of the cycle (`pastes`). -/
def cyclePastes (P : Nat) (env : CycleEnv) : List Item :=
  dedupRun (crawlFound P env) []

/-- The candidates not in the seen set (`new_pastes`). -/
def cycleNew (P : Nat) (env : CycleEnv) (posted : List (List Char)) : List Item :=
  (cyclePastes P env).filter (fun p => decide (p.url ∉ posted))

/-- Python `set.add`: insert when absent. -/
def addSeen (seen : List (List Char)) (u : List Char) : List (List Char) :=
  if u ∈ seen then seen else seen ++ [u]

/-- Adding every new url to the seen set, in iteration order. -/
def addAllSeen (seen : List (List Char)) (us : List (List Char)) : List (List Char) :=
  us.foldl addSeen seen

/-- Counter updates. -/
def incScans (st : BotState) : BotState :=
  { st with stats := { st.stats with scans := st.stats.scans + 1 } }

/-- Candidate-counter update of step 2. -/
def addPastes (st : BotState) (n : Nat) : BotState :=
  { st with stats := { st.stats with total_pastes := st.stats.total_pastes + n } }

/-- Combo-counter update of step 6. -/
def addCombos (st : BotState) (n : Nat) : BotState :=
  { st with stats := { st.stats with total_combos := st.stats.total_combos + n } }

/-- Empty-streak increment. -/
def incEmpty (st : BotState) : BotState :=
  { st with stats := { st.stats with empty_scans := st.stats.empty_scans + 1 } }

/-- Empty-streak reset. -/
def resetEmpty (st : BotState) : BotState :=
  { st with stats := { st.stats with empty_scans := 0 } }

/-- Label heuristic of step 6: first keyword found in the lowercased
space-join of the new pastes' titles. -/
def deriveLabel (ps : List Item) : List Char :=
  let t := joinSp (ps.map (fun p => p.title.map Char.toLower))
  if hasSubstr "hotmail".toList t then "hotmail".toList
  else if hasSubstr "hits".toList t then "hits".toList
  else if hasSubstr "mix".toList t || hasSubstr "mixed".toList t then "mix".toList
  else "content".toList

/-- Total combo count reported to the owner: sum of the line counts of
the accumulated blocks. -/
def combosTotal (combined : List (List Char)) : Nat :=
  (combined.map (fun b => (pySplitlines b).length)).sum

/-- Extraction loop of step 6 over the first five new pastes: per item,
run the extractor, validate, accumulate a block when any credential
lines were found, and count them.  Returns the final state, the
extraction events in order and the accumulated blocks. -/
def extractPhase (env : CycleEnv) (st : BotState) :
    List Item → BotState × List Event × List (List Char)
  | [] => (st, [], [])
  | it :: rest =>
    let raw := extract_raw (env.xenv it.url)
    if raw = [] then
      let r := extractPhase env st rest
      (r.1, Event.extractOn it.url :: r.2.1, r.2.2)
    else
      let creds := extract_credentials raw
      if creds = [] then
        let r := extractPhase env st rest
        (r.1, Event.extractOn it.url :: r.2.1, r.2.2)
      else
        let r := extractPhase env (addCombos st creds.length) rest
        (r.1, Event.extractOn it.url :: r.2.1, joinNl creds :: r.2.2)

/-- Embedding of the guarded pipeline of one `monitor_loop` invocation,
parameterised by the page count `P` (the source always passes the global
PAGES_TO_SCAN).  Every `except` clause of the source appears here as an
early return or a skipped block.  The source's failure points that no
`except` guards - browser-session startup and teardown - are modelled on
top of this function by `runCycleFull`. -/
def runCycle (P : Nat) (env : CycleEnv) (st : BotState) : BotState × List Event :=
  if env.channelOk = false then (st, [])
  else if env.lockBusy = true then (st, [])
  else
    let st1 := incScans st
    if (List.range 3).any env.archiveAttempt = false then (st1, [])
    else
      let pages := scanFuel env P 1
      let pastes := cyclePastes P env
      let st2 := addPastes st1 pastes.length
      let ev1 := pages.map Event.pageScan ++ [Event.postAll (pastes.map Item.url)]
      let newPastes := cycleNew P env st.posted_urls
      if newPastes = [] then
        let st3 := incEmpty st2
        (st3, ev1 ++ (if st3.stats.empty_scans = EMPTY_SCAN_ALERT then [Event.ownerStreak] else []))
      else
        let st3 := resetEmpty st2
        let st4 := { st3 with posted_urls := addAllSeen st3.posted_urls (newPastes.map Item.url) }
        let ev2 := [Event.saveSeen st4.posted_urls]
        let ev3 := if env.newChannelOk then newPastes.map (fun p => Event.alertNew p.url) else []
        if env.contentChannelOk then
          let r := extractPhase env st4 (newPastes.take 5)
          let ev5 :=
            if r.2.2 = [] then []
            else [Event.postContent (deriveLabel newPastes),
                  Event.ownerCombos (combosTotal r.2.2),
                  Event.telegram (deriveLabel newPastes)]
          (r.1, ev1 ++ ev2 ++ ev3 ++ r.2.1 ++ ev5)
        else
          (st4, ev1 ++ ev2 ++ ev3)

/-- The background task body: a cycle at the configured page count. -/
def monitor_loop (env : CycleEnv) (st : BotState) : BotState × List Event :=
  runCycle PAGES_TO_SCAN env st

/-- Embedding of the `/scrape` command: it accepts a page-count override
but its body only awaits `monitor_loop()`, so the override is unused and
the cycle runs at the global PAGES_TO_SCAN. -/
def cmd_scrape (_pages : Nat) (env : CycleEnv) (st : BotState) : BotState × List Event :=
  monitor_loop env st

/-- Embedding of one `monitor_loop` invocation including the failure
paths that no `except` of the source guards: the browser-session startup
(`async_playwright` start, `chromium.launch`, `new_page`, lines 224-229)
and the session teardown (`browser.close()` in the `finally` block and
the playwright context exit, lines 397-398).  `launchFails` and
`closeFails` say whether those raise.  The Boolean in the result records
whether an exception escaped `monitor_loop`; mutations of the global
state made before the raise persist (the scans counter is incremented at
line 221, before the startup), and a teardown failure escapes after the
guarded body ran to completion with all its effects. -/
def runCycleFull (P : Nat) (launchFails closeFails : Bool) (env : CycleEnv)
    (st : BotState) : (BotState × List Event) × Bool :=
  if env.channelOk = false then ((st, []), false)
  else if env.lockBusy = true then ((st, []), false)
  else if launchFails = true then ((incScans st, []), true)
  else (runCycle P env st, closeFails)

/-- A sequence of cycles over the process lifetime. -/
def runCycles (P : Nat) : List CycleEnv → BotState → BotState × List Event
  | [], st => (st, [])
  | e :: es, st =>
    let r1 := runCycle P e st
    let r2 := runCycles P es r1.1
    (r2.1, r1.2 ++ r2.2)

/-- Number of new-item alerts for a given identifier in an event trace. -/
def countAlert (u : List Char) (evs : List Event) : Nat :=
  evs.count (Event.alertNew u)

/-- Number of empty-streak owner alerts in an event trace. -/
def countStreak (evs : List Event) : Nat :=
  evs.count Event.ownerStreak

/-- Recogniser for extraction events. -/
def isExtractEv : Event → Bool
  | Event.extractOn _ => true
  | _ => false

/-- Recogniser for page-scan events. -/
def isPageScanEv : Event → Bool
  | Event.pageScan _ => true
  | _ => false

/-- Number of archive pages scanned in an event trace. -/
def countPageScan (evs : List Event) : Nat :=
  evs.countP isPageScanEv

/-- A cycle that gets past its guards: the channel lookup succeeded, no
cycle was in flight, and some archive-load attempt succeeded. -/
def completes (env : CycleEnv) : Prop :=
  env.channelOk = true ∧ env.lockBusy = false ∧ (List.range 3).any env.archiveAttempt = true

instance (env : CycleEnv) : Decidable (completes env) := by
  unfold completes; infer_instance

/-- A start state: empty seen set, zero counters. -/
def st0 : BotState := ⟨[], ⟨0, 0, 0, 0⟩⟩

/-- A rendering environment in which both navigation attempts fail. -/
def xenvFail : ExtractEnv := ⟨fun _ => true, fun _ => none, fun _ => [], fun _ => none⟩

/-- A concrete candidate used by the witnesses. -/
def itemA : Item := ⟨"hotmail hits fresh".toList, "u1".toList⟩

/-- A cycle whose first archive page carries one matching anchor and
whose next-page control is missing. -/
def envOne : CycleEnv :=
  ⟨true, false, fun _ => true, fun _ => false,
   fun n => if n = 1 then [itemA] else [], true, true, fun _ => xenvFail⟩

/-- A completing cycle that finds no anchors at all. -/
def envNone : CycleEnv :=
  ⟨true, false, fun _ => true, fun _ => false, fun _ => [], true, true, fun _ => xenvFail⟩

/-- A cycle whose archive load fails on all three attempts. -/
def envDown : CycleEnv :=
  ⟨true, false, fun _ => false, fun _ => false, fun _ => [], true, true, fun _ => xenvFail⟩

/-- A cycle in which every next-page control is found and enabled, so all
configured pages are visited. -/
def envDeep : CycleEnv :=
  ⟨true, false, fun _ => true, fun _ => true, fun _ => [], true, true, fun _ => xenvFail⟩

/-- A start state in which `u1` was already seen. -/
def stW1 : BotState := ⟨["u1".toList], ⟨0, 0, 0, 0⟩⟩

/-- A collected-anchor list with one identifier under two labels. -/
def l7 : List Item := [⟨"t1".toList, "u".toList⟩, ⟨"t2".toList, "u".toList⟩]

/-- Seen set after step 4 marks the cycle's new candidates. -/
def markedSeen (P : Nat) (env : CycleEnv) (st : BotState) : List (List Char) :=
  addAllSeen st.posted_urls ((cycleNew P env st.posted_urls).map Item.url)

/-- State right after step 4 of a cycle that found new candidates:
counters of steps 1-2 applied, empty streak reset, new urls marked. -/
def stMarked (P : Nat) (env : CycleEnv) (st : BotState) : BotState :=
  { posted_urls := markedSeen P env st,
    stats := { total_pastes := st.stats.total_pastes + (cyclePastes P env).length,
               total_combos := st.stats.total_combos,
               scans := st.stats.scans + 1,
               empty_scans := 0 } }

/-- Events of steps 2-3: one page-scan record per visited page and the
full-candidate publication. -/
def cycleEv1 (P : Nat) (env : CycleEnv) : List Event :=
  (scanFuel env P 1).map Event.pageScan ++ [Event.postAll ((cyclePastes P env).map Item.url)]

/-- Step 6's extraction run over the first five new candidates. -/
def cycleXtr (P : Nat) (env : CycleEnv) (st : BotState) :
    BotState × List Event × List (List Char) :=
  extractPhase env (stMarked P env st) ((cycleNew P env st.posted_urls).take 5)

/-- Step 5's per-candidate alert events, skipped wholesale when the alert
channel lookup raised. -/
def cycleAlertEvents (P : Nat) (env : CycleEnv) (st : BotState) : List Event :=
  if env.newChannelOk then
    (cycleNew P env st.posted_urls).map (fun p => Event.alertNew p.url)
  else []

/-- The three content publications at the end of step 6, absent when no
block was accumulated. -/
def cycleContentEvents (P : Nat) (env : CycleEnv) (st : BotState) : List Event :=
  if (cycleXtr P env st).2.2 = [] then []
  else [Event.postContent (deriveLabel (cycleNew P env st.posted_urls)),
        Event.ownerCombos (combosTotal (cycleXtr P env st).2.2),
        Event.telegram (deriveLabel (cycleNew P env st.posted_urls))]

/-! Helper lemmas about the string embeddings. -/

theorem dropWhile_self (p : Char → Bool) :
    ∀ l : List Char, (l.dropWhile p).dropWhile p = l.dropWhile p := by
  intro l
  induction l with
  | nil => simp
  | cons c cs ih =>
    cases hc : p c with
    | true => simp [List.dropWhile_cons, hc, ih]
    | false => simp [List.dropWhile_cons, hc]

theorem dropWhile_sfx (p : Char → Bool) : ∀ l : List Char, l.dropWhile p <:+ l := by
  intro l
  induction l with
  | nil => exact List.suffix_rfl
  | cons c cs ih =>
    cases hc : p c with
    | true =>
      simp only [List.dropWhile_cons, hc, if_true]
      exact ih.trans (List.suffix_cons c cs)
    | false =>
      simp only [List.dropWhile_cons, hc, if_false]
      exact List.suffix_rfl

theorem head?_dropWhile (p : Char → Bool) :
    ∀ l : List Char, ∀ c, (l.dropWhile p).head? = some c → p c = false := by
  intro l
  induction l with
  | nil => intro c h; simp at h
  | cons a as ih =>
    intro c h
    cases ha : p a with
    | true => exact ih c (by simpa [List.dropWhile_cons, ha] using h)
    | false =>
      simp [List.dropWhile_cons, ha] at h
      rw [← h]
      exact ha

theorem dropWhile_eq_self_of_head? (p : Char → Bool) (l : List Char)
    (h : ∀ c, l.head? = some c → p c = false) : l.dropWhile p = l := by
  cases l with
  | nil => rfl
  | cons a as => simp [List.dropWhile_cons, h a rfl]

theorem trimL_trimL (l : List Char) : trimL (trimL l) = trimL l :=
  dropWhile_self _ l

theorem trimR_pref (l : List Char) : trimR l <+: l := by
  have h2 : (trimR l).reverse <:+ l.reverse := by
    unfold trimR
    rw [List.reverse_reverse]
    exact dropWhile_sfx _ _
  exact List.reverse_suffix.mp h2

theorem trimL_sfx (l : List Char) : trimL l <:+ l := dropWhile_sfx _ l

theorem pyStrip_sublist (l : List Char) : (pyStrip l).Sublist l := by
  unfold pyStrip
  exact ((trimR_pref (trimL l)).sublist).trans (trimL_sfx l).sublist

theorem pyStrip_length_le (l : List Char) : (pyStrip l).length ≤ l.length :=
  (pyStrip_sublist l).length_le

theorem pyStrip_subset (l : List Char) : ∀ x ∈ pyStrip l, x ∈ l :=
  fun _ hx => (pyStrip_sublist l).subset hx

theorem trimL_head? (l : List Char) :
    ∀ c, (trimL l).head? = some c → Char.isWhitespace c = false :=
  head?_dropWhile _ l

theorem pyStrip_idem (l : List Char) : pyStrip (pyStrip l) = pyStrip l := by
  unfold pyStrip
  have hTLn : trimL (trimR (trimL l)) = trimR (trimL l) := by
    apply dropWhile_eq_self_of_head?
    intro c hc
    obtain ⟨s, hs⟩ := trimR_pref (trimL l)
    apply trimL_head? l c
    rw [← hs]
    cases hps : trimR (trimL l) with
    | nil => rw [hps] at hc; simp at hc
    | cons a t => rw [hps] at hc; simpa using hc
  have hTRn : trimR (trimR (trimL l)) = trimR (trimL l) := by
    unfold trimR
    simp [List.reverse_reverse, dropWhile_self]
  rw [hTLn, hTRn]

theorem pyStrip_no_mem (l : List Char) (c : Char) (h : c ∉ l) : c ∉ pyStrip l :=
  fun hc => h (pyStrip_subset l c hc)

/-! Helper lemmas about `splitFirstAt` and `pySplitlines`. -/

theorem splitFirstAt_eq (sep : Char) :
    ∀ l a b, splitFirstAt sep l = some (a, b) → l = a ++ sep :: b := by
  intro l
  induction l with
  | nil => intro a b h; simp [splitFirstAt] at h
  | cons c cs ih =>
    intro a b h
    by_cases hc : c = sep
    · rw [splitFirstAt, if_pos hc] at h
      simp only [Option.some.injEq, Prod.mk.injEq] at h
      obtain ⟨rfl, rfl⟩ := h
      simp [hc]
    · rw [splitFirstAt, if_neg hc] at h
      rw [Option.map_eq_some'] at h
      obtain ⟨⟨a1, b1⟩, hsp, hab⟩ := h
      simp only [Prod.mk.injEq] at hab
      rw [← hab.1, ← hab.2, List.cons_append, ← ih a1 b1 hsp]

theorem pySplitlines_no_nl : ∀ l : List Char, ∀ s ∈ pySplitlines l, '\n' ∉ s := by
  intro l
  induction l with
  | nil => simp [pySplitlines]
  | cons c cs ih =>
    intro s hs
    by_cases hc : c = '\n'
    · rw [pySplitlines, if_pos hc] at hs
      rcases List.mem_cons.mp hs with h1 | h1
      · simp [h1]
      · exact ih s h1
    · rw [pySplitlines, if_neg hc] at hs
      rcases hrec : pySplitlines cs with _ | ⟨seg, rest⟩
      · rw [hrec] at hs
        rcases List.mem_cons.mp hs with h1 | h1
        · rw [h1]
          simpa using fun h => hc h.symm
        · simp at h1
      · rw [hrec] at hs
        rcases List.mem_cons.mp hs with h1 | h1
        · rw [h1]
          intro hmem
          rcases List.mem_cons.mp hmem with h2 | h2
          · exact hc h2.symm
          · exact ih seg (by rw [hrec]; exact List.mem_cons_self _ _) h2
        · exact ih s (by rw [hrec]; exact List.mem_cons_of_mem _ h1)

theorem pySplitlines_single (l : List Char) (h1 : l ≠ []) (h2 : '\n' ∉ l) :
    pySplitlines l = [l] := by
  induction l with
  | nil => exact absurd rfl h1
  | cons c cs ih =>
    have hc : c ≠ '\n' := fun h => h2 (h ▸ List.mem_cons_self c cs)
    rw [pySplitlines, if_neg hc]
    rcases hcs : cs with _ | ⟨d, ds⟩
    · simp [pySplitlines]
    · rw [← hcs, ih (by simp [hcs]) (fun h => h2 (List.mem_cons_of_mem c h))]

theorem pySplitlines_append (l t : List Char) (h : '\n' ∉ l) :
    pySplitlines (l ++ '\n' :: t) = l :: pySplitlines t := by
  induction l with
  | nil => simp [pySplitlines]
  | cons c l2 ih =>
    have hc : c ≠ '\n' := fun hh => h (hh ▸ List.mem_cons_self c l2)
    have ih2 := ih (fun hh => h (List.mem_cons_of_mem c hh))
    rw [List.cons_append, pySplitlines, if_neg hc, ih2]

theorem pySplitlines_joinNl (ls : List (List Char))
    (h : ∀ s ∈ ls, s ≠ [] ∧ '\n' ∉ s) : pySplitlines (joinNl ls) = ls := by
  induction ls with
  | nil => simp [joinNl, pySplitlines]
  | cons l ls ih =>
    rcases hls : ls with _ | ⟨l2, rest⟩
    · obtain ⟨ha, hb⟩ := h l (List.mem_cons_self l ls)
      simpa [joinNl] using pySplitlines_single l ha hb
    · rw [← hls]
      have hjoin : joinNl (l :: ls) = l ++ '\n' :: joinNl ls := by rw [hls]; rfl
      rw [hjoin, pySplitlines_append l (joinNl ls) (h l (List.mem_cons_self l ls)).2,
        ih (fun s hs => h s (List.mem_cons_of_mem l hs))]

/-! Helper lemmas about the within-run deduplication. -/

theorem dedupRun_sublist :
    ∀ (l : List Item) (seen : List (List Char)), (dedupRun l seen).Sublist l := by
  intro l
  induction l with
  | nil => intro seen; simp [dedupRun]
  | cons it rest ih =>
    intro seen
    rw [dedupRun]
    by_cases h : it.url ∈ seen
    · rw [if_pos h]
      exact (ih seen).cons it
    · rw [if_neg h]
      exact (ih _).cons₂ it

theorem dedupRun_nodup :
    ∀ (l : List Item) (seen : List (List Char)),
      ((dedupRun l seen).map Item.url).Nodup ∧
        ∀ u ∈ (dedupRun l seen).map Item.url, u ∉ seen := by
  intro l
  induction l with
  | nil => intro seen; simp [dedupRun]
  | cons it rest ih =>
    intro seen
    rw [dedupRun]
    by_cases h : it.url ∈ seen
    · rw [if_pos h]
      exact ih seen
    · rw [if_neg h]
      obtain ⟨h1, h2⟩ := ih (it.url :: seen)
      refine ⟨?_, ?_⟩
      · rw [List.map_cons, List.nodup_cons]
        exact ⟨fun hmem => (h2 _ hmem) (List.mem_cons_self _ _), h1⟩
      · intro u hu
        rw [List.map_cons, List.mem_cons] at hu
        rcases hu with rfl | hu
        · exact h
        · exact fun hs => (h2 u hu) (List.mem_cons_of_mem _ hs)

theorem dedupRun_mem :
    ∀ (l : List Item) (seen : List (List Char)), ∀ it ∈ l,
      it.url ∉ seen → it.url ∈ (dedupRun l seen).map Item.url := by
  intro l
  induction l with
  | nil => intro seen it hit; simp at hit
  | cons a rest ih =>
    intro seen it hit hno
    rw [dedupRun]
    by_cases h : a.url ∈ seen
    · rw [if_pos h]
      rcases List.mem_cons.mp hit with rfl | hit2
      · exact absurd h hno
      · exact ih seen it hit2 hno
    · rw [if_neg h]
      rcases List.mem_cons.mp hit with rfl | hit2
      · rw [List.map_cons]
        exact List.mem_cons_self _ _
      · by_cases hua : it.url = a.url
        · rw [List.map_cons, hua]
          exact List.mem_cons_self _ _
        · rw [List.map_cons]
          refine List.mem_cons_of_mem _ (ih _ it hit2 ?_)
          intro hs
          rcases List.mem_cons.mp hs with h1 | h1
          · exact hua h1
          · exact hno h1

theorem dedupRun_first :
    ∀ (l : List Item) (seen : List (List Char)), ∀ it ∈ dedupRun l seen,
      it.url ∉ seen ∧ l.find? (fun x => x.url == it.url) = some it := by
  intro l
  induction l with
  | nil => intro seen it hit; simp [dedupRun] at hit
  | cons a rest ih =>
    intro seen it hit
    rw [dedupRun] at hit
    by_cases h : a.url ∈ seen
    · rw [if_pos h] at hit
      obtain ⟨hno, hfind⟩ := ih seen it hit
      have hne : ¬(a.url == it.url) = true := by
        rw [beq_iff_eq]
        intro he
        exact hno (he ▸ h)
      refine ⟨hno, ?_⟩
      have hstep : List.find? (fun x => x.url == it.url) (a :: rest) =
          List.find? (fun x => x.url == it.url) rest := List.find?_cons_of_neg rest hne
      rw [hstep, hfind]
    · rw [if_neg h] at hit
      rcases List.mem_cons.mp hit with rfl | hit2
      · exact ⟨h, List.find?_cons_of_pos rest (by simp)⟩
      · obtain ⟨hno, hfind⟩ := ih _ it hit2
        have hne2 : it.url ≠ a.url := fun he => hno (he ▸ List.mem_cons_self _ _)
        have hne : ¬(a.url == it.url) = true := by
          rw [beq_iff_eq]
          exact fun he => hne2 he.symm
        refine ⟨fun hs => hno (List.mem_cons_of_mem _ hs), ?_⟩
        have hstep : List.find? (fun x => x.url == it.url) (a :: rest) =
            List.find? (fun x => x.url == it.url) rest := List.find?_cons_of_neg rest hne
        rw [hstep, hfind]

/-! Helper lemmas about `extractCredsAux`. -/

theorem filter_notmem_cons (c : List Char) (seen : List (List Char)) (l : List (List Char)) :
    l.filter (fun x => decide (x ∉ c :: seen)) =
      (l.filter (fun x => decide (x ∉ seen))).filter (fun x => decide (x ≠ c)) := by
  rw [List.filter_filter]
  apply List.filter_congr
  intro x hx
  have hiff : (x ∉ c :: seen) ↔ (x ≠ c ∧ x ∉ seen) := by
    rw [List.mem_cons, not_or]
  rw [decide_eq_decide.mpr hiff, Bool.decide_and]

theorem okLine_iff (l : List Char) :
    okLine l = true ↔ l ≠ [] ∧ is_valid_combo l = true := by
  unfold okLine
  rw [decide_eq_true_eq]

theorem extractAux_eq (ls : List (List Char)) :
    ∀ seen, extractCredsAux seen ls =
      dedupKeepFirst (((ls.map pyStrip).filter okLine).filter (fun x => decide (x ∉ seen))) := by
  induction ls with
  | nil => intro seen; simp [extractCredsAux, dedupKeepFirst]
  | cons a rest ih =>
    intro seen
    rw [extractCredsAux, List.map_cons]
    by_cases hok : okLine (pyStrip a) = true
    · by_cases hseen : pyStrip a ∈ seen
      · rw [if_neg (fun hcond => hcond.2.2 hseen)]
        rw [List.filter_cons_of_pos hok, List.filter_cons_of_neg (by simp [hseen])]
        exact ih seen
      · obtain ⟨h1, h2⟩ := (okLine_iff _).mp hok
        rw [if_pos ⟨h1, h2, hseen⟩]
        rw [List.filter_cons_of_pos hok, List.filter_cons_of_pos (by simp [hseen])]
        rw [dedupKeepFirst]
        congr 1
        rw [ih (pyStrip a :: seen)]
        congr 1
        exact filter_notmem_cons (pyStrip a) seen _
    · rw [if_neg (fun hcond => hok ((okLine_iff _).mpr ⟨hcond.1, hcond.2.1⟩))]
      rw [List.filter_cons_of_neg hok]
      exact ih seen

theorem extractAux_mem (ls : List (List Char)) :
    ∀ seen, ∀ o ∈ extractCredsAux seen ls,
      (∃ a ∈ ls, o = pyStrip a) ∧ o ≠ [] ∧ is_valid_combo o = true ∧ o ∉ seen := by
  induction ls with
  | nil => intro seen o ho; simp [extractCredsAux] at ho
  | cons a rest ih =>
    intro seen o ho
    rw [extractCredsAux] at ho
    by_cases hc : pyStrip a ≠ [] ∧ is_valid_combo (pyStrip a) = true ∧ pyStrip a ∉ seen
    · rw [if_pos hc] at ho
      rcases List.mem_cons.mp ho with rfl | ho2
      · exact ⟨⟨a, List.mem_cons_self _ _, rfl⟩, hc.1, hc.2.1, hc.2.2⟩
      · obtain ⟨⟨b, hb, rfl⟩, h1, h2, h3⟩ := ih (pyStrip a :: seen) o ho2
        exact ⟨⟨b, List.mem_cons_of_mem _ hb, rfl⟩, h1, h2,
          fun hs => h3 (List.mem_cons_of_mem _ hs)⟩
    · rw [if_neg hc] at ho
      obtain ⟨⟨b, hb, rfl⟩, h1, h2, h3⟩ := ih seen o ho
      exact ⟨⟨b, List.mem_cons_of_mem _ hb, rfl⟩, h1, h2, h3⟩

theorem extractAux_nodup (ls : List (List Char)) :
    ∀ seen, (extractCredsAux seen ls).Nodup := by
  induction ls with
  | nil => intro seen; simp [extractCredsAux]
  | cons a rest ih =>
    intro seen
    rw [extractCredsAux]
    by_cases hc : pyStrip a ≠ [] ∧ is_valid_combo (pyStrip a) = true ∧ pyStrip a ∉ seen
    · rw [if_pos hc]
      rw [List.nodup_cons]
      refine ⟨?_, ih (pyStrip a :: seen)⟩
      intro hmem
      obtain ⟨_, _, _, h3⟩ := extractAux_mem rest (pyStrip a :: seen) _ hmem
      exact h3 (List.mem_cons_self _ _)
    · rw [if_neg hc]
      exact ih seen

theorem extractAux_fixed (ls : List (List Char)) :
    (∀ o ∈ ls, pyStrip o = o ∧ o ≠ [] ∧ is_valid_combo o = true) → ls.Nodup →
      ∀ seen, (∀ o ∈ ls, o ∉ seen) → extractCredsAux seen ls = ls := by
  induction ls with
  | nil => intro _ _ seen _; simp [extractCredsAux]
  | cons a rest ih =>
    intro h hnd seen hseen
    obtain ⟨hstrip, hne, hval⟩ := h a (List.mem_cons_self _ _)
    rw [extractCredsAux, hstrip,
      if_pos ⟨hne, hval, hseen a (List.mem_cons_self _ _)⟩]
    congr 1
    apply ih (fun o ho => h o (List.mem_cons_of_mem _ ho)) (List.Nodup.of_cons hnd) (a :: seen)
    intro o ho hs
    rcases List.mem_cons.mp hs with h1 | h1
    · exact (List.nodup_cons.mp hnd).1 (h1 ▸ ho)
    · exact hseen o (List.mem_cons_of_mem _ ho) h1

/-! Helper lemmas about the extractor. -/

theorem attemptResult_nav (e : ExtractEnv) (i : Nat) (h : e.navFails i = true) :
    attemptResult e i = none := by
  simp [attemptResult, h]

theorem attemptResult_spec (e : ExtractEnv) (i : Nat) :
    attemptResult e i = none ∨
      ∃ r, attemptResult e i = some r ∧ isBlank r = false ∧
        (e.stratA i = some r ∨ e.stratB i = r ∨ e.stratC i = some r) := by
  by_cases hn : e.navFails i = true
  · exact Or.inl (attemptResult_nav e i hn)
  · rcases hA : e.stratA i with _ | vA
    · by_cases hB : isBlank (e.stratB i) = true
      · rcases hC : e.stratC i with _ | vC
        · exact Or.inl (by simp [attemptResult, hn, hA, hC, isBlankO, hB])
        · by_cases hCb : isBlank vC = true
          · exact Or.inl (by simp [attemptResult, hn, hA, hC, isBlankO, hB, hCb])
          · refine Or.inr ⟨vC, ?_, by simpa using hCb, Or.inr (Or.inr rfl)⟩
            simp [attemptResult, hn, hA, hC, isBlankO, hB, hCb]
      · refine Or.inr ⟨e.stratB i, ?_, by simpa using hB, Or.inr (Or.inl rfl)⟩
        simp [attemptResult, hn, hA, isBlankO, hB]
    · by_cases hAb : isBlank vA = true
      · by_cases hB : isBlank (e.stratB i) = true
        · rcases hC : e.stratC i with _ | vC
          · exact Or.inl (by simp [attemptResult, hn, hA, hC, isBlankO, hAb, hB])
          · by_cases hCb : isBlank vC = true
            · exact Or.inl (by simp [attemptResult, hn, hA, hC, isBlankO, hAb, hB, hCb])
            · refine Or.inr ⟨vC, ?_, by simpa using hCb, Or.inr (Or.inr rfl)⟩
              simp [attemptResult, hn, hA, hC, isBlankO, hAb, hB, hCb]
        · refine Or.inr ⟨e.stratB i, ?_, by simpa using hB, Or.inr (Or.inl rfl)⟩
          simp [attemptResult, hn, hA, isBlankO, hAb, hB]
      · refine Or.inr ⟨vA, ?_, by simpa using hAb, Or.inl rfl⟩
        simp [attemptResult, hn, hA, isBlankO, hAb]

/-! Helper lemma equating the source validator with the amended
characterization. -/

theorem valid_eq_amended (line : List Char) :
    is_valid_combo line = claimPredAmended line := by
  unfold is_valid_combo claimPredAmended
  rcases hs : splitFirstAt ':' line with _ | ⟨k, v⟩
  · simp [hs]
  · have hne : line ≠ [] := by
      intro h
      rw [h] at hs
      simp [splitFirstAt] at hs
    have hE : line.isEmpty = false := by
      cases line with
      | nil => exact absurd rfl hne
      | cons c cs => rfl
    simp only [hs, hE, Bool.false_or]
    by_cases hL : 200 < line.length
    · have h1 : decide (200 < line.length) = true := decide_eq_true hL
      have h2 : decide (line.length ≤ 200) = false := decide_eq_false (by omega)
      simp [h1, h2]
    · have h1 : decide (200 < line.length) = false := decide_eq_false hL
      have h2 : decide (line.length ≤ 200) = true := decide_eq_true (by omega)
      by_cases hP : '|' ∈ line
      · have hP2 : line.contains '|' = true := by simpa using hP
        simp [h1, h2, hP, hP2]
      · have hP2 : line.contains '|' = false := by simpa using hP
        by_cases hEm2 : hasEmoji line = true
        · simp [h1, h2, hP, hP2, hEm2]
        · have hEm3 : hasEmoji line = false := by simpa using hEm2
          by_cases hJ : hasJunk line = true
          · simp [h1, h2, hP, hP2, hEm3, hJ]
          · have hJ2 : hasJunk line = false := by simpa using hJ
            by_cases hvnil : pyStrip v = []
            · have h3 : decide (3 ≤ (pyStrip v).length) = false :=
                decide_eq_false (by simp [hvnil])
              simp [h1, h2, hP, hP2, hEm3, hJ2, hvnil, h3]
            · by_cases hlen : (pyStrip v).length < 3
              · have h3 : decide (3 ≤ (pyStrip v).length) = false :=
                  decide_eq_false (by omega)
                simp [h1, h2, hP, hP2, hEm3, hJ2, hvnil, hlen, h3]
              · have h3 : decide (3 ≤ (pyStrip v).length) = true :=
                  decide_eq_true (by omega)
                have h4 : decide ((pyStrip v).length < 3) = false := decide_eq_false hlen
                cases hEmail : emailMatch (pyStrip k) <;>
                  simp [h1, h2, hP, hP2, hEm3, hJ2, h3, h4, hvnil, hEmail]

/-! Helper lemmas about the seen set. -/

theorem addSeen_mem (seen : List (List Char)) (u x : List Char) :
    x ∈ addSeen seen u ↔ x ∈ seen ∨ x = u := by
  unfold addSeen
  by_cases h : u ∈ seen
  · rw [if_pos h]
    constructor
    · exact Or.inl
    · rintro (hx | rfl)
      · exact hx
      · exact h
  · rw [if_neg h]
    simp [List.mem_append]

theorem addSeen_nodup (seen : List (List Char)) (u : List Char) (h : seen.Nodup) :
    (addSeen seen u).Nodup := by
  unfold addSeen
  by_cases hm : u ∈ seen
  · rw [if_pos hm]
    exact h
  · rw [if_neg hm]
    simp [List.nodup_append, h, hm]

theorem addAllSeen_mem (us : List (List Char)) :
    ∀ seen x, x ∈ addAllSeen seen us ↔ x ∈ seen ∨ x ∈ us := by
  induction us with
  | nil => intro seen x; simp [addAllSeen]
  | cons u us ih =>
    intro seen x
    have hstep : addAllSeen seen (u :: us) = addAllSeen (addSeen seen u) us := rfl
    rw [hstep, ih (addSeen seen u) x, addSeen_mem]
    simp [List.mem_cons]
    tauto

theorem addAllSeen_nodup (us : List (List Char)) :
    ∀ seen, seen.Nodup → (addAllSeen seen us).Nodup := by
  induction us with
  | nil => intro seen h; exact h
  | cons u us ih =>
    intro seen h
    exact ih (addSeen seen u) (addSeen_nodup seen u h)

/-! Helper lemmas about the extraction phase of step 6. -/

theorem extractPhase_parts (env : CycleEnv) :
    ∀ (items : List Item) (st : BotState),
      (extractPhase env st items).1.posted_urls = st.posted_urls ∧
      (extractPhase env st items).1.stats.empty_scans = st.stats.empty_scans ∧
      ∀ ev ∈ (extractPhase env st items).2.1, ∃ u, ev = Event.extractOn u := by
  intro items
  induction items with
  | nil => intro st; exact ⟨rfl, rfl, by simp [extractPhase]⟩
  | cons it rest ih =>
    intro st
    rw [extractPhase]
    by_cases hraw : extract_raw (env.xenv it.url) = []
    · rw [if_pos hraw]
      obtain ⟨ha, hb, hev⟩ := ih st
      refine ⟨ha, hb, ?_⟩
      intro ev hev2
      rcases List.mem_cons.mp hev2 with rfl | h2
      · exact ⟨it.url, rfl⟩
      · exact hev ev h2
    · rw [if_neg hraw]
      by_cases hcreds : extract_credentials (extract_raw (env.xenv it.url)) = []
      · rw [if_pos hcreds]
        obtain ⟨ha, hb, hev⟩ := ih st
        refine ⟨ha, hb, ?_⟩
        intro ev hev2
        rcases List.mem_cons.mp hev2 with rfl | h2
        · exact ⟨it.url, rfl⟩
        · exact hev ev h2
      · rw [if_neg hcreds]
        obtain ⟨ha, hb, hev⟩ := ih (addCombos st (extract_credentials (extract_raw (env.xenv it.url))).length)
        refine ⟨by rw [ha]; rfl, by rw [hb]; rfl, ?_⟩
        intro ev hev2
        rcases List.mem_cons.mp hev2 with rfl | h2
        · exact ⟨it.url, rfl⟩
        · exact hev ev h2

/-! Counting helpers for event traces. -/

theorem countAlert_append (u : List Char) (l1 l2 : List Event) :
    countAlert u (l1 ++ l2) = countAlert u l1 + countAlert u l2 :=
  List.count_append _ _ _

theorem countStreak_append (l1 l2 : List Event) :
    countStreak (l1 ++ l2) = countStreak l1 + countStreak l2 :=
  List.count_append _ _ _

theorem countAlert_zero_of_not_mem (u : List Char) (l : List Event)
    (h : Event.alertNew u ∉ l) : countAlert u l = 0 :=
  List.count_eq_zero.mpr h

theorem countStreak_zero_of_not_mem (l : List Event)
    (h : Event.ownerStreak ∉ l) : countStreak l = 0 :=
  List.count_eq_zero.mpr h

theorem countAlert_map_alert (u : List Char) (us : List (List Char)) :
    countAlert u (us.map Event.alertNew) = us.count u := by
  induction us with
  | nil => rfl
  | cons a as ih =>
    rw [List.map_cons]
    unfold countAlert at *
    rw [List.count_cons, List.count_cons, ih]
    congr 1
    simp [Event.alertNew.injEq]

/-! Closed forms of the four runCycle outcomes. -/

theorem runCycle_channelFail (P : Nat) (env : CycleEnv) (st : BotState)
    (h : env.channelOk = false) : runCycle P env st = (st, []) := by
  simp [runCycle, h]

theorem runCycle_locked (P : Nat) (env : CycleEnv) (st : BotState)
    (hc : env.channelOk = true) (h : env.lockBusy = true) :
    runCycle P env st = (st, []) := by
  simp [runCycle, hc, h]

theorem runCycle_archiveFail (P : Nat) (env : CycleEnv) (st : BotState)
    (hc : env.channelOk = true) (hl : env.lockBusy = false)
    (ha : (List.range 3).any env.archiveAttempt = false) :
    runCycle P env st = (incScans st, []) := by
  simp [runCycle, hc, hl, ha]

theorem runCycle_empty_eq (P : Nat) (env : CycleEnv) (st : BotState)
    (hc1 : env.channelOk = true) (hc2 : env.lockBusy = false)
    (hc3 : (List.range 3).any env.archiveAttempt = true)
    (hn : cycleNew P env st.posted_urls = []) :
    runCycle P env st =
      (incEmpty (addPastes (incScans st) (cyclePastes P env).length),
       cycleEv1 P env ++
         (if st.stats.empty_scans + 1 = EMPTY_SCAN_ALERT then [Event.ownerStreak] else [])) := by
  simp [runCycle, hc1, hc2, hc3, hn, cycleEv1, incScans, addPastes, incEmpty]

theorem runCycle_new_eq (P : Nat) (env : CycleEnv) (st : BotState)
    (hc1 : env.channelOk = true) (hc2 : env.lockBusy = false)
    (hc3 : (List.range 3).any env.archiveAttempt = true)
    (hn : cycleNew P env st.posted_urls ≠ []) :
    runCycle P env st =
      ((if env.contentChannelOk then (cycleXtr P env st).1 else stMarked P env st),
       cycleEv1 P env ++ Event.saveSeen (markedSeen P env st) ::
         (cycleAlertEvents P env st ++
           (if env.contentChannelOk then
              (cycleXtr P env st).2.1 ++ cycleContentEvents P env st
            else []))) := by
  by_cases hcc : env.contentChannelOk = true
  · simp [runCycle, hc1, hc2, hc3, hn, hcc, cycleEv1, cycleAlertEvents,
      cycleContentEvents, cycleXtr, stMarked, markedSeen, incScans, addPastes, resetEmpty]
  · have hcc2 : env.contentChannelOk = false := by simpa using hcc
    simp [runCycle, hc1, hc2, hc3, hn, hcc2, cycleEv1, cycleAlertEvents,
      cycleContentEvents, cycleXtr, stMarked, markedSeen, incScans, addPastes, resetEmpty]

/-! Per-cycle counting lemmas. -/

theorem countAlert_ev1 (P : Nat) (env : CycleEnv) (u : List Char) :
    countAlert u (cycleEv1 P env) = 0 := by
  apply countAlert_zero_of_not_mem
  simp [cycleEv1, List.mem_append, List.mem_map]

theorem countStreak_ev1 (P : Nat) (env : CycleEnv) :
    countStreak (cycleEv1 P env) = 0 := by
  apply countStreak_zero_of_not_mem
  simp [cycleEv1, List.mem_append, List.mem_map]

theorem countAlert_xtr (P : Nat) (env : CycleEnv) (st : BotState) (u : List Char) :
    countAlert u ((cycleXtr P env st).2.1 ++ cycleContentEvents P env st) = 0 := by
  apply countAlert_zero_of_not_mem
  rw [List.mem_append]
  rintro (h | h)
  · obtain ⟨w, hw⟩ := (extractPhase_parts env _ _).2.2 _ h
    exact Event.noConfusion hw
  · unfold cycleContentEvents at h
    by_cases hcase : (cycleXtr P env st).2.2 = []
    · rw [if_pos hcase] at h
      simp at h
    · rw [if_neg hcase] at h
      simp at h

theorem countStreak_xtr (P : Nat) (env : CycleEnv) (st : BotState) :
    countStreak ((cycleXtr P env st).2.1 ++ cycleContentEvents P env st) = 0 := by
  apply countStreak_zero_of_not_mem
  rw [List.mem_append]
  rintro (h | h)
  · obtain ⟨w, hw⟩ := (extractPhase_parts env _ _).2.2 _ h
    exact Event.noConfusion hw
  · unfold cycleContentEvents at h
    by_cases hcase : (cycleXtr P env st).2.2 = []
    · rw [if_pos hcase] at h
      simp at h
    · rw [if_neg hcase] at h
      simp at h

theorem countStreak_alertEvents (P : Nat) (env : CycleEnv) (st : BotState) :
    countStreak (cycleAlertEvents P env st) = 0 := by
  apply countStreak_zero_of_not_mem
  unfold cycleAlertEvents
  by_cases hcase : env.newChannelOk = true
  · rw [if_pos hcase]
    simp [List.mem_map]
  · rw [if_neg hcase]
    simp

theorem countAlert_alertEvents (P : Nat) (env : CycleEnv) (st : BotState) (u : List Char) :
    countAlert u (cycleAlertEvents P env st) =
      if env.newChannelOk = true then ((cycleNew P env st.posted_urls).map Item.url).count u
      else 0 := by
  unfold cycleAlertEvents
  by_cases hcase : env.newChannelOk = true
  · rw [if_pos hcase, if_pos hcase]
    have hmm : (cycleNew P env st.posted_urls).map (fun p => Event.alertNew p.url) =
        ((cycleNew P env st.posted_urls).map Item.url).map Event.alertNew := by
      rw [List.map_map]
      rfl
    rw [hmm, countAlert_map_alert]
  · rw [if_neg hcase, if_neg hcase]
    rfl

/-! Facts about the cycle's new-candidate urls. -/

theorem newUrls_nodup (P : Nat) (env : CycleEnv) (posted : List (List Char)) :
    ((cycleNew P env posted).map Item.url).Nodup := by
  have h1 := (dedupRun_nodup (crawlFound P env) []).1
  have hsub : (cycleNew P env posted).Sublist (cyclePastes P env) := by
    unfold cycleNew
    exact List.filter_sublist _
  exact List.Nodup.sublist (hsub.map Item.url) h1

theorem newUrls_not_posted (P : Nat) (env : CycleEnv) (posted : List (List Char))
    (u : List Char) (h : u ∈ posted) : u ∉ (cycleNew P env posted).map Item.url := by
  intro hm
  rw [List.mem_map] at hm
  obtain ⟨p, hp, rfl⟩ := hm
  unfold cycleNew at hp
  rw [List.mem_filter] at hp
  exact (of_decide_eq_true hp.2) h

theorem mem_markedSeen (P : Nat) (env : CycleEnv) (st : BotState) (x : List Char) :
    x ∈ markedSeen P env st ↔
      x ∈ st.posted_urls ∨ x ∈ (cycleNew P env st.posted_urls).map Item.url := by
  unfold markedSeen
  exact addAllSeen_mem _ _ _

theorem count_le_one_of_nodup (l : List (List Char)) (h : l.Nodup) (u : List Char) :
    l.count u ≤ 1 := by
  induction l with
  | nil => simp
  | cons x xs ih =>
    rw [List.count_cons]
    obtain ⟨hx, hxs⟩ := List.nodup_cons.mp h
    by_cases he : x = u
    · subst he
      have hz : xs.count x = 0 := List.count_eq_zero.mpr hx
      simp [hz]
    · have hbe : (x == u) = false := by simpa using he
      simp [hbe, ih hxs]

/-! Per-cycle facts used by the lifetime inductions. -/

theorem runCycle_posted_parts (P : Nat) (env : CycleEnv) (st : BotState) (u : List Char) :
    countAlert u (runCycle P env st).2 ≤ 1 ∧
    (u ∈ st.posted_urls → countAlert u (runCycle P env st).2 = 0) ∧
    (1 ≤ countAlert u (runCycle P env st).2 → u ∈ (runCycle P env st).1.posted_urls) ∧
    (∀ x ∈ st.posted_urls, x ∈ (runCycle P env st).1.posted_urls) ∧
    (st.posted_urls.Nodup → (runCycle P env st).1.posted_urls.Nodup) := by
  cases hc1 : env.channelOk with
  | false =>
    rw [runCycle_channelFail P env st hc1]
    simp [countAlert]
  | true =>
    cases hc2 : env.lockBusy with
    | true =>
      rw [runCycle_locked P env st hc1 hc2]
      simp [countAlert]
    | false =>
      cases hc3 : (List.range 3).any env.archiveAttempt with
      | false =>
        rw [runCycle_archiveFail P env st hc1 hc2 hc3]
        simp [countAlert, incScans]
      | true =>
        by_cases hn : cycleNew P env st.posted_urls = []
        · rw [runCycle_empty_eq P env st hc1 hc2 hc3 hn]
          have hz : countAlert u
              (cycleEv1 P env ++
                (if st.stats.empty_scans + 1 = EMPTY_SCAN_ALERT then [Event.ownerStreak]
                 else [])) = 0 := by
            rw [countAlert_append, countAlert_ev1]
            by_cases hq : st.stats.empty_scans + 1 = EMPTY_SCAN_ALERT
            · rw [if_pos hq]
              simp [countAlert]
            · rw [if_neg hq]
              simp [countAlert]
          rw [hz]
          simp [incEmpty, addPastes, incScans]
        · rw [runCycle_new_eq P env st hc1 hc2 hc3 hn]
          have htrace : countAlert u
              (cycleEv1 P env ++ Event.saveSeen (markedSeen P env st) ::
                (cycleAlertEvents P env st ++
                  (if env.contentChannelOk = true then
                     (cycleXtr P env st).2.1 ++ cycleContentEvents P env st
                   else []))) = countAlert u (cycleAlertEvents P env st) := by
            rw [countAlert_append, countAlert_ev1]
            unfold countAlert
            rw [List.count_cons]
            rw [List.count_append]
            have htail : (if env.contentChannelOk = true then
                (cycleXtr P env st).2.1 ++ cycleContentEvents P env st
              else []).count (Event.alertNew u) = 0 := by
              by_cases hcc : env.contentChannelOk = true
              · rw [if_pos hcc]
                exact countAlert_xtr P env st u
              · rw [if_neg hcc]
                rfl
            rw [htail]
            simp
          have hposted : ((if env.contentChannelOk = true then (cycleXtr P env st).1
              else stMarked P env st)).posted_urls = markedSeen P env st := by
            by_cases hcc : env.contentChannelOk = true
            · rw [if_pos hcc]
              unfold cycleXtr
              rw [(extractPhase_parts env _ _).1]
              rfl
            · rw [if_neg hcc]
              rfl
          have hle : countAlert u (cycleAlertEvents P env st) ≤ 1 := by
            rw [countAlert_alertEvents]
            by_cases hnc : env.newChannelOk = true
            · rw [if_pos hnc]
              exact count_le_one_of_nodup _ (newUrls_nodup P env st.posted_urls) u
            · rw [if_neg hnc]
              exact Nat.zero_le 1
          refine ⟨by rw [htrace]; exact hle, ?_, ?_, ?_, ?_⟩
          · intro hu
            rw [htrace, countAlert_alertEvents]
            by_cases hnc : env.newChannelOk = true
            · rw [if_pos hnc]
              exact List.count_eq_zero.mpr (newUrls_not_posted P env st.posted_urls u hu)
            · rw [if_neg hnc]
          · intro hge
            rw [hposted, mem_markedSeen]
            rw [htrace, countAlert_alertEvents] at hge
            by_cases hnc : env.newChannelOk = true
            · rw [if_pos hnc] at hge
              right
              exact List.count_pos_iff.mp (by omega)
            · rw [if_neg hnc] at hge
              omega
          · intro x hx
            rw [hposted, mem_markedSeen]
            exact Or.inl hx
          · intro hnd
            rw [hposted]
            unfold markedSeen
            exact addAllSeen_nodup _ _ hnd

theorem runCycle_streak_empty (P : Nat) (env : CycleEnv) (st : BotState)
    (hc1 : env.channelOk = true) (hc2 : env.lockBusy = false)
    (hc3 : (List.range 3).any env.archiveAttempt = true)
    (hn : cycleNew P env st.posted_urls = []) :
    countStreak (runCycle P env st).2 =
      (if st.stats.empty_scans + 1 = EMPTY_SCAN_ALERT then 1 else 0) ∧
    (runCycle P env st).1.posted_urls = st.posted_urls ∧
    (runCycle P env st).1.stats.empty_scans = st.stats.empty_scans + 1 := by
  rw [runCycle_empty_eq P env st hc1 hc2 hc3 hn]
  refine ⟨?_, rfl, rfl⟩
  rw [countStreak_append, countStreak_ev1]
  by_cases hq : st.stats.empty_scans + 1 = EMPTY_SCAN_ALERT
  · rw [if_pos hq, if_pos hq]
    simp [countStreak]
  · rw [if_neg hq, if_neg hq]
    simp [countStreak]

theorem runCycle_streak_new (P : Nat) (env : CycleEnv) (st : BotState)
    (hc1 : env.channelOk = true) (hc2 : env.lockBusy = false)
    (hc3 : (List.range 3).any env.archiveAttempt = true)
    (hn : cycleNew P env st.posted_urls ≠ []) :
    countStreak (runCycle P env st).2 = 0 ∧
    (runCycle P env st).1.stats.empty_scans = 0 := by
  rw [runCycle_new_eq P env st hc1 hc2 hc3 hn]
  constructor
  · rw [countStreak_append, countStreak_ev1]
    unfold countStreak
    rw [List.count_cons, List.count_append]
    have htail : (if env.contentChannelOk = true then
        (cycleXtr P env st).2.1 ++ cycleContentEvents P env st
      else []).count Event.ownerStreak = 0 := by
      by_cases hcc : env.contentChannelOk = true
      · rw [if_pos hcc]
        exact countStreak_xtr P env st
      · rw [if_neg hcc]
        rfl
    rw [htail]
    have halert := countStreak_alertEvents P env st
    unfold countStreak at halert
    rw [halert]
    simp
  · by_cases hcc : env.contentChannelOk = true
    · rw [if_pos hcc]
      unfold cycleXtr
      rw [(extractPhase_parts env _ _).2.1]
      rfl
    · rw [if_neg hcc]
      rfl

theorem runCycle_new_posted (P : Nat) (env : CycleEnv) (st : BotState)
    (hc1 : env.channelOk = true) (hc2 : env.lockBusy = false)
    (hc3 : (List.range 3).any env.archiveAttempt = true)
    (hn : cycleNew P env st.posted_urls ≠ []) :
    (runCycle P env st).1.posted_urls = markedSeen P env st := by
  rw [runCycle_new_eq P env st hc1 hc2 hc3 hn]
  by_cases hcc : env.contentChannelOk = true
  · rw [if_pos hcc]
    show (cycleXtr P env st).1.posted_urls = markedSeen P env st
    unfold cycleXtr
    rw [(extractPhase_parts env _ _).1]
    rfl
  · rw [if_neg hcc]
    rfl

/-! Lifetime inductions. -/

theorem runCycles_alert (P : Nat) (envs : List CycleEnv) :
    ∀ (st : BotState) (u : List Char),
      (∀ x ∈ st.posted_urls, x ∈ (runCycles P envs st).1.posted_urls) ∧
      (st.posted_urls.Nodup → (runCycles P envs st).1.posted_urls.Nodup) ∧
      (u ∈ st.posted_urls → countAlert u (runCycles P envs st).2 = 0) ∧
      countAlert u (runCycles P envs st).2 ≤ 1 := by
  induction envs with
  | nil =>
    intro st u
    exact ⟨fun x hx => hx, fun h => h, fun _ => rfl, Nat.zero_le 1⟩
  | cons e es ih =>
    intro st u
    obtain ⟨c1, c2, c3, c4, c5⟩ := runCycle_posted_parts P e st u
    obtain ⟨i1, i2, i3, i4⟩ := ih (runCycle P e st).1 u
    have hfst : (runCycles P (e :: es) st).1 = (runCycles P es (runCycle P e st).1).1 := rfl
    have hsnd : (runCycles P (e :: es) st).2 =
        (runCycle P e st).2 ++ (runCycles P es (runCycle P e st).1).2 := rfl
    refine ⟨?_, ?_, ?_, ?_⟩
    · intro x hx
      rw [hfst]
      exact i1 x (c4 x hx)
    · intro hnd
      rw [hfst]
      exact i2 (c5 hnd)
    · intro hu
      rw [hsnd, countAlert_append, c2 hu, i3 (c4 u hu)]
    · rw [hsnd, countAlert_append]
      by_cases hu : u ∈ st.posted_urls
      · rw [c2 hu, i3 (c4 u hu)]
        omega
      · by_cases hu2 : u ∈ (runCycle P e st).1.posted_urls
        · rw [i3 hu2]
          omega
        · have hc0 : countAlert u (runCycle P e st).2 = 0 := by
            by_contra hcne
            exact hu2 (c3 (Nat.one_le_iff_ne_zero.mpr hcne))
          rw [hc0]
          omega

theorem runCycles_streak (P : Nat) (envs : List CycleEnv) :
    ∀ st : BotState,
      (∀ e ∈ envs, completes e ∧ cycleNew P e st.posted_urls = []) →
      countStreak (runCycles P envs st).2 =
        (if st.stats.empty_scans < EMPTY_SCAN_ALERT ∧
            EMPTY_SCAN_ALERT ≤ st.stats.empty_scans + envs.length then 1 else 0) := by
  induction envs with
  | nil =>
    intro st _
    have h0 : countStreak (runCycles P [] st).2 = 0 := rfl
    rw [h0, List.length_nil]
    have hcond : ¬(st.stats.empty_scans < EMPTY_SCAN_ALERT ∧
        EMPTY_SCAN_ALERT ≤ st.stats.empty_scans + 0) := by
      omega
    rw [if_neg hcond]
  | cons e es ih =>
    intro st h
    obtain ⟨hce, hne⟩ := h e (List.mem_cons_self _ _)
    obtain ⟨hc1, hc2, hc3⟩ := hce
    obtain ⟨s1, s2, s3⟩ := runCycle_streak_empty P e st hc1 hc2 hc3 hne
    have hsnd : (runCycles P (e :: es) st).2 =
        (runCycle P e st).2 ++ (runCycles P es (runCycle P e st).1).2 := rfl
    rw [hsnd, countStreak_append, s1]
    have htr : ∀ e2 ∈ es, completes e2 ∧ cycleNew P e2 (runCycle P e st).1.posted_urls = [] := by
      intro e2 he2
      obtain ⟨hc, hn2⟩ := h e2 (List.mem_cons_of_mem _ he2)
      rw [s2]
      exact ⟨hc, hn2⟩
    rw [ih (runCycle P e st).1 htr, s3, List.length_cons]
    split_ifs <;> omega

/-! Claim theorems. -/

/-- C1: the seen set is monotonic for the process lifetime - every cycle
only adds identifiers (an identifier is added at most once, duplicate-
freeness is preserved, none is ever removed), and a new-item alert for
any identifier `u` is emitted at most once across any sequence of cycles;
if `u` is already in the seen set it is never alerted on again. -/
theorem seen_monotone_alert_once (P : Nat) (envs : List CycleEnv) (st : BotState)
    (u : List Char) :
    (∀ x ∈ st.posted_urls, x ∈ (runCycles P envs st).1.posted_urls) ∧
    (st.posted_urls.Nodup → (runCycles P envs st).1.posted_urls.Nodup) ∧
    (u ∈ st.posted_urls → countAlert u (runCycles P envs st).2 = 0) ∧
    countAlert u (runCycles P envs st).2 ≤ 1 :=
  runCycles_alert P envs st u

/-- C1 witness: an identifier already seen is carried through two cycles
that both surface it, and is never alerted on. -/
theorem seen_monotone_alert_once_witness :
    "u1".toList ∈ (runCycles 10 [envOne, envOne] stW1).1.posted_urls ∧
    countAlert "u1".toList (runCycles 10 [envOne, envOne] stW1).2 = 0 := by
  obtain ⟨hmono, _, hzero, _⟩ :=
    seen_monotone_alert_once 10 [envOne, envOne] stW1 "u1".toList
  exact ⟨hmono "u1".toList (by decide), hzero (by decide)⟩

/-- C2: in every completing cycle that finds new candidates, the seen-set
write (carrying every new candidate's identifier) appears in the event
trace strictly before any extraction event, and every new identifier is
in the in-memory seen set afterwards. -/
theorem mark_and_persist_precede_extraction (P : Nat) (env : CycleEnv) (st : BotState)
    (hc : completes env) (hn : cycleNew P env st.posted_urls ≠ []) :
    ∃ pre post,
      (runCycle P env st).2 = pre ++ Event.saveSeen (markedSeen P env st) :: post ∧
      (∀ ev ∈ pre, isExtractEv ev = false) ∧
      (∀ u ∈ (cycleNew P env st.posted_urls).map Item.url, u ∈ markedSeen P env st) ∧
      (∀ u ∈ (cycleNew P env st.posted_urls).map Item.url,
        u ∈ (runCycle P env st).1.posted_urls) := by
  obtain ⟨hc1, hc2, hc3⟩ := hc
  have hposted := runCycle_new_posted P env st hc1 hc2 hc3 hn
  rw [runCycle_new_eq P env st hc1 hc2 hc3 hn]
  rw [runCycle_new_eq P env st hc1 hc2 hc3 hn] at hposted
  refine ⟨cycleEv1 P env, _, rfl, ?_, ?_, ?_⟩
  · intro ev hev
    unfold cycleEv1 at hev
    rcases List.mem_append.mp hev with h1 | h1
    · obtain ⟨n, _, rfl⟩ := List.mem_map.mp h1
      rfl
    · rw [List.mem_singleton.mp h1]
      rfl
  · intro u hu
    rw [mem_markedSeen]
    exact Or.inr hu
  · intro u hu
    rw [hposted, mem_markedSeen]
    exact Or.inr hu

/-- C2 witness: a cycle with one fresh candidate. -/
theorem mark_and_persist_precede_extraction_witness :
    ∃ pre post,
      (runCycle 10 envOne st0).2 =
        pre ++ Event.saveSeen (markedSeen 10 envOne st0) :: post ∧
      (∀ ev ∈ pre, isExtractEv ev = false) ∧
      (∀ u ∈ (cycleNew 10 envOne st0.posted_urls).map Item.url,
        u ∈ markedSeen 10 envOne st0) ∧
      (∀ u ∈ (cycleNew 10 envOne st0.posted_urls).map Item.url,
        u ∈ (runCycle 10 envOne st0).1.posted_urls) :=
  mark_and_persist_precede_extraction 10 envOne st0 (by decide) (by decide)

/-- C3 counterexample: the source validator accepts a line whose key part
carries a leading space, while the claim's conditions (key part matching
the email pattern untrimmed) reject it, so the stated equivalence fails
at this input. -/
theorem validator_claim_counterexample :
    is_valid_combo " a@b.com:pass123".toList = true ∧
    claimPredLiteral " a@b.com:pass123".toList = false :=
  ⟨by decide, by decide⟩

/-- C3 amended: the per-line predicate accepts a line iff its length is
at most 200, it has no pipe, no emoji-range glyph, no junk substring, a
colon is present and the line splits at the first colon into a key part
whose whitespace-trimmed form matches the email pattern and a value part
whose trimmed form has length at least 3; and the four spec examples
behave as stated. -/
theorem validator_characterization_amended :
    (∀ line, is_valid_combo line = claimPredAmended line) ∧
    is_valid_combo "a@b.com:ab".toList = false ∧
    is_valid_combo "a@b.com:pass|word".toList = false ∧
    is_valid_combo "notanemail:pass123".toList = false ∧
    is_valid_combo "a@b.com:Secr3t!".toList = true :=
  ⟨valid_eq_amended, by decide, by decide, by decide, by decide⟩

/-- C4: the extractor's result is the empty string or a non-blank string,
it is always the verbatim output of a single strategy of a single
attempt (never a concatenation of strategies), and when both navigation
attempts fail it is exactly the empty string, with no exception escaping
(the function is total). -/
theorem extractor_result_guarantee (e : ExtractEnv) :
    (extract_raw e = [] ∨ isBlank (extract_raw e) = false) ∧
    (extract_raw e = [] ∨
      ∃ i, i < 2 ∧ (e.stratA i = some (extract_raw e) ∨ e.stratB i = extract_raw e ∨
        e.stratC i = some (extract_raw e))) ∧
    (e.navFails 0 = true ∧ e.navFails 1 = true → extract_raw e = []) := by
  rcases attemptResult_spec e 0 with h0 | ⟨r0, h0, hb0, hsrc0⟩
  · rcases attemptResult_spec e 1 with h1 | ⟨r1, h1, hb1, hsrc1⟩
    · have hx : extract_raw e = [] := by
        unfold extract_raw
        rw [h0, h1]
      exact ⟨Or.inl hx, Or.inl hx, fun _ => hx⟩
    · have hx : extract_raw e = r1 := by
        unfold extract_raw
        rw [h0, h1]
      refine ⟨Or.inr (by rw [hx]; exact hb1),
        Or.inr ⟨1, by omega, by rw [hx]; exact hsrc1⟩, ?_⟩
      rintro ⟨hn0, hn1⟩
      rw [attemptResult_nav e 1 hn1] at h1
      exact absurd h1 (by simp)
  · have hx : extract_raw e = r0 := by
      unfold extract_raw
      rw [h0]
    refine ⟨Or.inr (by rw [hx]; exact hb0),
      Or.inr ⟨0, by omega, by rw [hx]; exact hsrc0⟩, ?_⟩
    rintro ⟨hn0, hn1⟩
    rw [attemptResult_nav e 0 hn0] at h0
    exact absurd h0 (by simp)

/-- C4 witness: with both navigation attempts failing, the extractor
returns the empty string. -/
theorem extractor_result_guarantee_witness : extract_raw xenvFail = [] :=
  (extractor_result_guarantee xenvFail).2.2 ⟨rfl, rfl⟩

/-- C5 counterexample: a failure of the browser-session startup (lines
224-229, outside every `try/except` of the source) escapes the cycle,
and so does a failure of the final `browser.close()` (line 398),
refuting the claim's clause that no failure in the cycle ever propagates
out of the orchestrator. -/
theorem crawl_failure_claim_counterexample :
    (runCycleFull 10 true false envNone st0).2 = true ∧
    (runCycleFull 10 false true envOne st0).2 = true :=
  ⟨by decide, by decide⟩

/-- C5 amended: when the archive load fails on all three attempts of a
cycle whose browser session starts and closes cleanly, the cycle returns
with only the scans-run counter incremented - seen set and all other
counters unchanged - an empty event trace (no post, no alert, no save,
no extraction) and no escaping exception; and in general an exception
escapes the orchestrator only from the unguarded session startup or
teardown - every failure inside the guarded pipeline body is caught. -/
theorem crawl_failure_aborts_cycle_amended (P : Nat) (env : CycleEnv) (st : BotState)
    (hc1 : env.channelOk = true) (hc2 : env.lockBusy = false)
    (ha : env.archiveAttempt 0 = false ∧ env.archiveAttempt 1 = false ∧
      env.archiveAttempt 2 = false) :
    runCycleFull P false false env st =
      (({ st with stats := { st.stats with scans := st.stats.scans + 1 } }, []), false) ∧
    (∀ (lf cf : Bool) (env2 : CycleEnv) (st2 : BotState),
      (runCycleFull P lf cf env2 st2).2 = true → lf = true ∨ cf = true) := by
  constructor
  · have hany : (List.range 3).any env.archiveAttempt = false := by
      have hr : List.range 3 = [0, 1, 2] := rfl
      rw [hr]
      simp [ha.1, ha.2.1, ha.2.2]
    have hbody := runCycle_archiveFail P env st hc1 hc2 hany
    unfold runCycleFull
    rw [if_neg (by simp [hc1] : ¬env.channelOk = false),
      if_neg (by simp [hc2] : ¬env.lockBusy = true),
      if_neg (by simp : ¬false = true), hbody]
    rfl
  · intro lf cf env2 st2 h
    unfold runCycleFull at h
    by_cases h1 : env2.channelOk = false
    · rw [if_pos h1] at h
      exact absurd h (by simp)
    · rw [if_neg h1] at h
      by_cases h2 : env2.lockBusy = true
      · rw [if_pos h2] at h
        exact absurd h (by simp)
      · rw [if_neg h2] at h
        by_cases h3 : lf = true
        · exact Or.inl h3
        · rw [if_neg h3] at h
          exact Or.inr h

/-- C5 witness: a concrete cycle with a dead archive and a healthy
browser session. -/
theorem crawl_failure_aborts_cycle_amended_witness :
    runCycleFull 10 false false envDown st0 =
      (({ st0 with stats := { st0.stats with scans := st0.stats.scans + 1 } }, []), false) :=
  (crawl_failure_aborts_cycle_amended 10 envDown st0 rfl rfl ⟨rfl, rfl, rfl⟩).1

/-- C6: over an unbroken run of completing cycles with zero new
candidates starting at streak zero, the owner alert is emitted exactly
once as soon as the run reaches the threshold length and never again
within the run; and a completing cycle with new candidates resets the
streak counter to zero. -/
theorem empty_streak_alert_once (P : Nat) (envs : List CycleEnv) (env : CycleEnv)
    (st : BotState) :
    (completes env → cycleNew P env st.posted_urls ≠ [] →
      (runCycle P env st).1.stats.empty_scans = 0) ∧
    (st.stats.empty_scans = 0 →
      (∀ e ∈ envs, completes e ∧ cycleNew P e st.posted_urls = []) →
      countStreak (runCycles P envs st).2 =
        (if EMPTY_SCAN_ALERT ≤ envs.length then 1 else 0)) := by
  constructor
  · intro hc hn
    obtain ⟨hc1, hc2, hc3⟩ := hc
    exact (runCycle_streak_new P env st hc1 hc2 hc3 hn).2
  · intro h0 hall
    rw [runCycles_streak P envs st hall, h0]
    have hE : EMPTY_SCAN_ALERT = 10 := rfl
    split_ifs <;> omega

/-- C6 witness: ten consecutive empty cycles fire the alert exactly once,
and a cycle with a new candidate resets the streak. -/
theorem empty_streak_alert_once_witness :
    countStreak (runCycles 10 (List.replicate 10 envNone) st0).2 = 1 ∧
    (runCycle 10 envOne st0).1.stats.empty_scans = 0 := by
  obtain ⟨hreset, hstreak⟩ :=
    empty_streak_alert_once 10 (List.replicate 10 envNone) envOne st0
  refine ⟨?_, hreset (by decide) (by decide)⟩
  rw [hstreak rfl (by decide)]
  decide

/-- C7: the within-run deduplication keeps a subsequence of the collected
items (first-seen order preserved), its identifiers are pairwise
distinct, every collected identifier survives, and every kept item is
exactly the first collected item bearing its identifier (so a repeated
identifier keeps the first label). -/
theorem crawler_dedup_first_seen (l : List Item) :
    (dedupRun l []).Sublist l ∧
    ((dedupRun l []).map Item.url).Nodup ∧
    (∀ it ∈ l, it.url ∈ (dedupRun l []).map Item.url) ∧
    (∀ it ∈ dedupRun l [], l.find? (fun x => x.url == it.url) = some it) := by
  refine ⟨dedupRun_sublist l [], (dedupRun_nodup l []).1, ?_, ?_⟩
  · intro it hit
    exact dedupRun_mem l [] it hit (by simp)
  · intro it hit
    exact (dedupRun_first l [] it hit).2

/-- C7 witness: with one identifier under two labels, the kept pair is
the first occurrence. -/
theorem crawler_dedup_first_seen_witness :
    l7.find? (fun x => x.url == (Item.mk "t1".toList "u".toList).url) =
      some (Item.mk "t1".toList "u".toList) :=
  (crawler_dedup_first_seen l7).2.2.2 (Item.mk "t1".toList "u".toList) (by decide)

/-- C8: `extract_credentials` returns exactly the stripped accepted lines
in original order with exact-text duplicates removed (first occurrence
kept), and is idempotent: validating the newline-join of its output
returns the output unchanged. -/
theorem validate_lines_order_dedup_idem (raw : List Char) :
    extract_credentials raw = dedupKeepFirst (acceptedLines raw) ∧
    extract_credentials (joinNl (extract_credentials raw)) = extract_credentials raw := by
  constructor
  · have h := extractAux_eq (pySplitlines raw) []
    unfold extract_credentials acceptedLines
    rw [h]
    congr 1
    apply List.filter_eq_self.mpr
    intro a _
    simp
  · have hprops : ∀ o ∈ extract_credentials raw,
        pyStrip o = o ∧ o ≠ [] ∧ is_valid_combo o = true := by
      intro o ho
      obtain ⟨⟨a, _, rfl⟩, h1, h2, _⟩ := extractAux_mem (pySplitlines raw) [] o ho
      exact ⟨pyStrip_idem a, h1, h2⟩
    have hnl : ∀ o ∈ extract_credentials raw, Char.ofNat 10 ∉ o := by
      intro o ho
      obtain ⟨⟨a, ha, rfl⟩, _, _, _⟩ := extractAux_mem (pySplitlines raw) [] o ho
      exact pyStrip_no_mem a _ (pySplitlines_no_nl raw a ha)
    have hnd : (extract_credentials raw).Nodup := extractAux_nodup (pySplitlines raw) []
    have hsplit : pySplitlines (joinNl (extract_credentials raw)) =
        extract_credentials raw :=
      pySplitlines_joinNl _ (fun o ho => ⟨(hprops o ho).2.1, hnl o ho⟩)
    show extractCredsAux [] (pySplitlines (joinNl (extract_credentials raw))) =
      extract_credentials raw
    rw [hsplit]
    exact extractAux_fixed _ hprops hnd [] (fun o _ h => List.not_mem_nil o h)

/-- C9: the manual `/scrape` command's page-count override is ignored -
the invoked cycle always runs at the global PAGES_TO_SCAN, so a trigger
with override 3 still scans 10 pages when pagination never ends early. -/
theorem scrape_override_ignored :
    (∀ (pages : Nat) (env : CycleEnv) (st : BotState),
      cmd_scrape pages env st = runCycle PAGES_TO_SCAN env st) ∧
    countPageScan (cmd_scrape 3 envDeep st0).2 = 10 ∧ PAGES_TO_SCAN = 10 :=
  ⟨fun _ _ _ => rfl, by decide, rfl⟩

/-- C10 counterexample: the validator accepts a line whose key part ends
in a space; the untrimmed key part of the first-colon split does not
match the email pattern, refuting the claim as stated. -/
theorem record_claim_counterexample :
    is_valid_combo "a@b.com :pw123".toList = true ∧
    splitFirstAt ':' "a@b.com :pw123".toList =
      some ("a@b.com ".toList, "pw123".toList) ∧
    emailMatch "a@b.com ".toList = false :=
  ⟨by decide, by decide, by decide⟩

/-- C10 amended: every line accepted by the validator splits at its first
colon into a key part whose whitespace-trimmed form matches the email
pattern and a value part of length at least 3 (both trimmed and
untrimmed), and key, colon and value concatenate back to the accepted
line exactly. -/
theorem record_reconstruction_amended (line : List Char)
    (h : is_valid_combo line = true) :
    ∃ k v, splitFirstAt ':' line = some (k, v) ∧ line = k ++ ':' :: v ∧
      emailMatch (pyStrip k) = true ∧ 3 ≤ (pyStrip v).length ∧ 3 ≤ v.length := by
  rw [valid_eq_amended] at h
  unfold claimPredAmended at h
  rcases hs : splitFirstAt ':' line with _ | ⟨k, v⟩
  · rw [hs] at h
    simp at h
  · rw [hs] at h
    simp only [Bool.and_eq_true] at h
    obtain ⟨⟨⟨⟨hlen, hpipe⟩, hemo⟩, hjunk⟩, hkv⟩ := h
    have hkv2 : emailMatch (pyStrip k) = true ∧
        decide (3 ≤ (pyStrip v).length) = true := by simpa using hkv
    refine ⟨k, v, rfl, splitFirstAt_eq ':' line k v hs, hkv2.1,
      of_decide_eq_true hkv2.2, ?_⟩
    exact le_trans (of_decide_eq_true hkv2.2) (pyStrip_length_le v)

/-- C10 witness: a concrete accepted line reconstructs. -/
theorem record_reconstruction_amended_witness :
    ∃ k v, splitFirstAt ':' "u@v.net:topsecret".toList = some (k, v) ∧
      "u@v.net:topsecret".toList = k ++ ':' :: v ∧
      emailMatch (pyStrip k) = true ∧ 3 ≤ (pyStrip v).length ∧ 3 ≤ v.length :=
  record_reconstruction_amended "u@v.net:topsecret".toList (by decide)

-- scratch checks, to be removed
example : runCycle 10 envDown st0 = (⟨[], ⟨0, 0, 1, 0⟩⟩, []) := by decide
example : countPageScan (cmd_scrape 3 envDeep st0).2 = 10 := by decide
example : cycleNew 10 envOne st0.posted_urls = [itemA] := by decide
example : (runCycle 10 envOne st0).2 =
    [Event.pageScan 1, Event.postAll ["u1".toList], Event.saveSeen ["u1".toList],
     Event.alertNew "u1".toList, Event.extractOn "u1".toList] := by decide
example : extract_raw xenvFail = [] := by decide
example : countStreak (runCycles 10 (List.replicate 10 envNone) st0).2 = 1 := by decide
example : countStreak (runCycles 10 (List.replicate 9 envNone) st0).2 = 0 := by decide
example : countStreak (runCycles 10 (List.replicate 12 envNone) st0).2 = 1 := by decide
example : is_valid_combo "a@b.com:ab".toList = false := by decide
example : is_valid_combo "a@b.com:pass|word".toList = false := by decide
example : is_valid_combo "notanemail:pass123".toList = false := by decide
example : is_valid_combo "a@b.com:Secr3t!".toList = true := by decide
example : is_valid_combo " a@b.com:pass123".toList = true := by decide
example : claimPredLiteral " a@b.com:pass123".toList = false := by decide
example : is_valid_combo "a@b.com :pw123".toList = true := by decide
example : emailMatch " a@b.com".toList = false := by decide
example : emailMatch "a@b.com ".toList = false := by decide
example : extract_credentials "a@b.com:xyz123\na@b.com:xyz123\nbad".toList = ["a@b.com:xyz123".toList] := by decide
